import Mathlib

/-!
Shallow embedding of `src/iptv.py` (IPTV channel-list generator).

Strings are modelled as `List Char` (the code never relies on byte-level
encoding, only on character operations: substring membership, substring
removal, whitespace stripping, concatenation).  Network fetches are
modelled by `Option` inputs: `none` is the failure signal the Python
`fetch` returns (`return None` in the `except` branch), `some rows` is a
successfully fetched and parsed table (BeautifulSoup parsing itself is
below the embedding; a table is given as its list of rows of cell texts).
-/

namespace IPTV

open scoped List

/-- Python `str.replace(kw, '')`, fuel-indexed so the recursion is
structural: scan left to right; whenever `kw` occurs at the current
position remove it and continue after the removed segment (non-overlapping,
leftmost-first, exactly as CPython `replace`).  The fuel is the number of
scan steps; each step consumes at least one character when `kw` is
nonempty (all cleanup keywords in the program are nonempty). -/
def replaceAllFuel (kw : List Char) : Nat → List Char → List Char
  | 0, s => s
  | _ + 1, [] => []
  | fuel + 1, c :: cs =>
    if !kw.isEmpty && kw.isPrefixOf (c :: cs) then
      replaceAllFuel kw fuel ((c :: cs).drop kw.length)
    else
      c :: replaceAllFuel kw fuel cs

/-- Python `name.replace(kw, '')` for nonempty `kw`: remove every
(leftmost-first, non-overlapping) occurrence of `kw`. -/
def replaceAll (kw s : List Char) : List Char :=
  replaceAllFuel kw s.length s

/-- Python `str.strip()`: drop leading and trailing whitespace.  Whitespace
is modelled by `Char.isWhitespace` (space, tab, CR, LF – the characters the
program ever meets). -/
def stripList (s : List Char) : List Char :=
  ((s.dropWhile Char.isWhitespace).reverse.dropWhile Char.isWhitespace).reverse

/-- Python `kw in text` (substring containment test). -/
def substringOf (kw : List Char) : List Char → Bool
  | [] => kw.isPrefixOf []
  | c :: cs => kw.isPrefixOf (c :: cs) || substringOf kw cs

/-- A raw channel-table row turned into a record by `extract_channels`:
`{'id': tds[0], 'name': tds[1], 'address': tds[2]}`. -/
structure RawChannelRecord where
  id : List Char
  name : List Char
  address : List Char
  deriving DecidableEq, Repr

/-- A record produced by `load_icons`:
`{'id': tds[3], 'name': tds[2], 'icon': a_tag['href']}`. -/
structure IconRecord where
  id : List Char
  name : List Char
  icon : List Char
  deriving DecidableEq, Repr

/-- One parsed `<tr>` of the icon table as `load_icons` sees it: the
stripped texts of its `<td>` cells, and the `href` of the first
`<a href=...>` inside the first cell when there is one. -/
structure IconRow where
  cells : List (List Char)
  firstCellHref : Option (List Char)
  deriving DecidableEq, Repr

/-- A processed channel as built by `process_channels`. -/
structure ProcessedChannel where
  id : List Char
  name : List Char
  address : List Char
  tag : List Char
  icon : List Char
  deriving DecidableEq, Repr

/-- The ordered category rules (`self.category_rules`, a Python dict in
insertion order). -/
def category_rules : List (List Char × List (List Char)) :=
  [("央视".data, ["CCTV".data, "CETV".data, "CGTN".data]),
   ("卫视".data, ["卫视".data]),
   ("少儿".data, ["少儿".data, "动画".data, "卡通".data]),
   ("电影".data, ["电影".data, "影院".data, "院线".data, "大片".data, "爱浪漫".data,
      "爱喜剧".data, "爱科幻".data, "爱院线".data, "爱历史".data, "爱悬疑".data, "爱谍战".data]),
   ("电视剧".data, ["剧场".data, "电视剧".data, "热播".data, "热门".data, "经典".data, "都市".data, "谍战".data,
      "都市剧场".data, "热门剧场".data, "经典剧场".data, "爱旅行".data, "精彩影视".data]),
   ("四川".data, ["SCTV".data, "四川".data, "CDTV".data, "熊猫".data, "峨眉".data, "成都".data])]

/-- The filter keywords (`self.filter_keywords`). -/
def filter_keywords : List (List Char) :=
  ["单音轨".data, "画中画".data, "热门".data, "直播室".data, "爱".data, "92".data,
   "测试".data, "备用".data, "临时".data, "应急".data]

/-- The cleanup keywords (`self.cleanup_keywords`), in replacement order. -/
def cleanup_keywords : List (List Char) :=
  ["超高清".data, "高清".data, "-".data, "标清".data]

/-- `contains_any`: `any(kw in text for kw in keywords)`. -/
def contains_any (text : List Char) (keywords : List (List Char)) : Bool :=
  keywords.any (fun kw => substringOf kw text)

/-- `categorize`: scan `category_rules` in order, return the first category
whose keyword set matches, else `"其他"`. -/
def categorize (name : List Char) : List Char :=
  match category_rules.find? (fun rule => contains_any name rule.2) with
  | some rule => rule.1
  | none => "其他".data

/-- The cleanup loop of `process_channels`:
`for kw in cleanup_keywords: name = name.replace(kw, '')` then
`name = name.strip()`. -/
def cleanup (name : List Char) : List Char :=
  stripList (cleanup_keywords.foldl (fun n kw => replaceAll kw n) name)

/-- `load_icons`: `none` input is a failed fetch (empty result); otherwise
keep rows with at least 4 cells whose first cell carries a hyperlink whose
target is not `"#"`, recording `{id: tds[3], name: tds[2], icon: href}`. -/
def load_icons (content : Option (List IconRow)) : List IconRecord :=
  match content with
  | none => []
  | some rows =>
    rows.filterMap (fun r =>
      if r.cells.length < 4 then none
      else
        match r.firstCellHref with
        | none => none
        | some href =>
          if href = "#".data then none
          else some ⟨r.cells.getD 3 [], r.cells.getD 2 [], href⟩)

/-- `extract_channels`: `none` input is a failed fetch (empty result);
otherwise skip empty rows, rows whose first cell is the header marker
`"序号"`, and rows with fewer than 3 cells; keep
`{id: tds[0], name: tds[1], address: tds[2]}`. -/
def extract_channels (content : Option (List (List (List Char)))) : List RawChannelRecord :=
  match content with
  | none => []
  | some rows =>
    rows.filterMap (fun tds =>
      if tds.isEmpty then none
      else if tds.headD [] = "序号".data then none
      else if tds.length < 3 then none
      else some ⟨tds.getD 0 [], tds.getD 1 [], tds.getD 2 []⟩)

/-- Lookup in a Python dict built by insertion (`d.get(key, dflt)`): with
duplicate keys the last insertion wins, so search the association list from
its end. -/
def dictGet (m : List (List Char × List Char)) (key dflt : List Char) : List Char :=
  match m.reverse.find? (fun p => p.1 == key) with
  | some p => p.2
  | none => dflt

/-- `build_icons_map`: `{item['name']: urljoin(base_url, item['icon']) for
item in icons}` as an insertion-ordered association list.  `urljoin` is the
Python standard-library relative-URL resolver, not code of this repository;
it enters the embedding as the parameter `join`. -/
def build_icons_map (join : List Char → List Char → List Char)
    (base_url : List Char) (icons : List IconRecord) : List (List Char × List Char) :=
  icons.map (fun item => (item.name, join base_url item.icon))

/-- `process_channels`: drop rows whose raw name matches a filter keyword;
clean the name; attach the category and the icon (empty string when the
cleaned name is not in the icon map). -/
def process_channels (channels : List RawChannelRecord)
    (icons_map : List (List Char × List Char)) : List ProcessedChannel :=
  channels.filterMap (fun ch =>
    if contains_any ch.name filter_keywords then none
    else
      let name := cleanup ch.name
      some ⟨ch.id, name, ch.address, categorize name, dictGet icons_map name []⟩)

/-- The header line of `write_m3u8` (without its trailing blank line). -/
def header_line (ts : List Char) : List Char :=
  "#EXTM3U name=\"成都电信IPTV - ".data ++ ts ++
    "\" url-tvg=\"http://epg.51zmt.top:8000/e.xml,https://epg.112114.xyz/pp.xml\"".data

/-- The `#EXTINF` metadata line written for one channel. -/
def extinf_line (ch : ProcessedChannel) : List Char :=
  "#EXTINF:-1 tvg-logo=\"".data ++ ch.icon ++ "\" tvg-id=\"".data ++ ch.id ++
    "\" tvg-name=\"".data ++ ch.name ++ "\" group-title=\"".data ++ ch.tag ++
    "\",".data ++ ch.name

/-- The stream-address line for one channel.  `env` is the value of the
`LAN_ADDRESS` environment variable (`none` when unset; the code falls back
to `"http://localhost"`). -/
def stream_line (use_lan : Bool) (env : Option (List Char)) (address : List Char) : List Char :=
  if use_lan then (env.getD "http://localhost".data) ++ "/rtp/".data ++ address
  else "rtp://".data ++ address

/-- The full text `write_m3u8` writes: header chunk (header line plus a
blank line), then for each channel its `#EXTINF` line and its stream line,
each terminated by a newline. -/
def write_m3u8_content (channels : List ProcessedChannel) (ts : List Char)
    (use_lan : Bool) (env : Option (List Char)) : List Char :=
  header_line ts ++ "\n\n".data ++
    (channels.map (fun ch =>
      extinf_line ch ++ "\n".data ++ stream_line use_lan env ch.address ++ "\n".data)).flatten

/-- The `run` pipeline below the two fetches: extract channels, build the
icon index, process, and render both playlists (first with LAN addresses,
then with raw multicast addresses, as in the source). -/
def run (channel_rows : Option (List (List (List Char))))
    (icon_rows : Option (List IconRow))
    (join : List Char → List Char → List Char) (base_url : List Char)
    (env : Option (List Char)) (ts_lan ts_rtp : List Char) : List Char × List Char :=
  let raw := extract_channels channel_rows
  let icons := load_icons icon_rows
  let icons_map := build_icons_map join base_url icons
  let processed := process_channels raw icons_map
  (write_m3u8_content processed ts_lan true env,
   write_m3u8_content processed ts_rtp false env)

/-- Split a character list into its lines (pieces between newline
characters; a trailing newline yields a final empty line). -/
def linesOf : List Char → List (List Char)
  | [] => [[]]
  | c :: cs =>
    if c = '\n' then [] :: linesOf cs
    else
      match linesOf cs with
      | [] => [[c]]
      | l :: ls => (c :: l) :: ls

/-- A line is blank when it has only whitespace characters. -/
def isBlankLine (l : List Char) : Bool :=
  l.all Char.isWhitespace

/-- The number of non-blank lines of a text. -/
def nonBlankCount (s : List Char) : Nat :=
  ((linesOf s).filter (fun l => !isBlankLine l)).length

/-! ### Helper lemmas about the string operations -/

theorem replaceAllFuel_sublist (kw : List Char) (fuel : Nat) (s : List Char) :
    replaceAllFuel kw fuel s <+ s := by
  induction fuel generalizing s with
  | zero => simp [replaceAllFuel]
  | succ fuel ih =>
    cases s with
    | nil => simp [replaceAllFuel]
    | cons c cs =>
      simp only [replaceAllFuel]
      split
      · exact (ih _).trans (List.drop_sublist _ _)
      · exact (ih cs).cons₂ c

theorem replaceAll_sublist (kw s : List Char) : replaceAll kw s <+ s :=
  replaceAllFuel_sublist kw s.length s

theorem replaceAllFuel_eq_self (kw : List Char) (fuel : Nat) (s : List Char)
    (h : substringOf kw s = false) : replaceAllFuel kw fuel s = s := by
  induction fuel generalizing s with
  | zero => simp [replaceAllFuel]
  | succ fuel ih =>
    cases s with
    | nil => simp [replaceAllFuel]
    | cons c cs =>
      simp only [substringOf, Bool.or_eq_false_iff] at h
      simp only [replaceAllFuel]
      rw [if_neg (by simp [h.1]), ih cs h.2]

theorem replaceAll_eq_self (kw s : List Char) (h : substringOf kw s = false) :
    replaceAll kw s = s :=
  replaceAllFuel_eq_self kw s.length s h

theorem not_mem_replaceAllFuel_single (c : Char) (fuel : Nat) (s : List Char)
    (h : s.length ≤ fuel) : c ∉ replaceAllFuel [c] fuel s := by
  induction fuel generalizing s with
  | zero =>
    cases s with
    | nil => simp [replaceAllFuel]
    | cons d ds => simp at h
  | succ fuel ih =>
    cases s with
    | nil => simp [replaceAllFuel]
    | cons d ds =>
      simp only [replaceAllFuel]
      by_cases hd : c = d
      · subst hd
        rw [if_pos (by simp [List.isPrefixOf_cons₂])]
        simpa using ih ds (by simpa using Nat.le_of_succ_le_succ h)
      · rw [if_neg (by simp [List.isPrefixOf_cons₂]; exact hd)]
        intro hmem
        rcases List.mem_cons.mp hmem with h1 | h1
        · exact hd h1
        · exact ih ds (by simpa using Nat.le_of_succ_le_succ h) h1

theorem not_mem_replaceAll_single (c : Char) (s : List Char) :
    c ∉ replaceAll [c] s :=
  not_mem_replaceAllFuel_single c s.length s (Nat.le_refl _)

theorem stripList_sublist (s : List Char) : stripList s <+ s := by
  unfold stripList
  have h2 := (List.dropWhile_sublist
    (l := (s.dropWhile Char.isWhitespace).reverse) Char.isWhitespace).reverse
  rw [List.reverse_reverse] at h2
  exact h2.trans (List.dropWhile_sublist _)

theorem dropWhile_twice (p : Char → Bool) (l : List Char) :
    (l.dropWhile p).dropWhile p = l.dropWhile p := by
  induction l with
  | nil => rfl
  | cons c cs ih =>
    by_cases h : p c
    · simp [List.dropWhile_cons, h, ih]
    · simp [List.dropWhile_cons, h]

theorem head_fails_of_dropWhile_eq (p : Char → Bool) (c : Char) (l : List Char)
    (h : List.dropWhile p (c :: l) = c :: l) : p c = false := by
  by_contra hc
  rw [Bool.not_eq_false] at hc
  rw [List.dropWhile_cons, if_pos hc] at h
  have hlen := congrArg List.length h
  have hle := (List.dropWhile_sublist (l := l) p).length_le
  simp at hlen
  omega

theorem stripList_idem (s : List Char) : stripList (stripList s) = stripList s := by
  have ht : List.dropWhile Char.isWhitespace (List.dropWhile Char.isWhitespace s)
      = List.dropWhile Char.isWhitespace s := dropWhile_twice _ s
  unfold stripList
  have hpre : ∃ q, (List.dropWhile Char.isWhitespace
      (s.dropWhile Char.isWhitespace).reverse).reverse ++ q
      = s.dropWhile Char.isWhitespace := by
    obtain ⟨q, hq⟩ := List.dropWhile_suffix
      (l := (s.dropWhile Char.isWhitespace).reverse) Char.isWhitespace
    exact ⟨q.reverse, by rw [← List.reverse_append, hq, List.reverse_reverse]⟩
  have huw : List.dropWhile Char.isWhitespace
      (List.dropWhile Char.isWhitespace
        (s.dropWhile Char.isWhitespace).reverse).reverse
      = (List.dropWhile Char.isWhitespace
        (s.dropWhile Char.isWhitespace).reverse).reverse := by
    obtain ⟨q, hq⟩ := hpre
    cases hwr : (List.dropWhile Char.isWhitespace
        (s.dropWhile Char.isWhitespace).reverse).reverse with
    | nil => simp
    | cons c u =>
      rw [hwr] at hq
      have hfc : Char.isWhitespace c = false := by
        apply head_fails_of_dropWhile_eq Char.isWhitespace c (u ++ q)
        rw [List.cons_append] at hq
        rw [hq]
        exact ht
      rw [List.dropWhile_cons, if_neg (by simp [hfc])]
  rw [huw, List.reverse_reverse, dropWhile_twice]

/-! ### Helper lemmas about line splitting and counting -/

theorem linesOf_append (a t : List Char) (h : '\n' ∉ a) :
    linesOf (a ++ '\n' :: t) = a :: linesOf t := by
  induction a with
  | nil => simp [linesOf]
  | cons c cs ih =>
    have hc : ¬c = '\n' := fun e => h (e ▸ List.mem_cons_self c cs)
    have h2 : '\n' ∉ cs := fun m => h (List.mem_cons_of_mem c m)
    simp only [List.cons_append, linesOf, if_neg hc, List.append_eq]
    rw [ih h2]

theorem nonBlankCount_append (a t : List Char) (h : '\n' ∉ a) :
    nonBlankCount (a ++ '\n' :: t)
      = (if isBlankLine a then 0 else 1) + nonBlankCount t := by
  unfold nonBlankCount
  rw [linesOf_append a t h, List.filter_cons]
  cases hb : isBlankLine a <;> simp [hb, Nat.add_comm]

/-! ### Helper lemmas about the rendered playlist lines -/

theorem newline_not_mem_header (ts : List Char) (h : '\n' ∉ ts) :
    '\n' ∉ header_line ts := by
  unfold header_line
  intro hm
  simp only [List.mem_append] at hm
  rcases hm with (hm | hm) | hm
  · revert hm; decide
  · exact h hm
  · revert hm; decide

theorem newline_not_mem_extinf (ch : ProcessedChannel)
    (hid : '\n' ∉ ch.id) (hname : '\n' ∉ ch.name)
    (htag : '\n' ∉ ch.tag) (hicon : '\n' ∉ ch.icon) :
    '\n' ∉ extinf_line ch := by
  unfold extinf_line
  intro hm
  simp only [List.mem_append] at hm
  rcases hm with ((((((((hm | hm) | hm) | hm) | hm) | hm) | hm) | hm) | hm) | hm
  · revert hm; decide
  · exact hicon hm
  · revert hm; decide
  · exact hid hm
  · revert hm; decide
  · exact hname hm
  · revert hm; decide
  · exact htag hm
  · revert hm; decide
  · exact hname hm

theorem newline_not_mem_stream (use_lan : Bool) (env : Option (List Char))
    (address : List Char) (henv : '\n' ∉ env.getD "http://localhost".data)
    (haddr : '\n' ∉ address) :
    '\n' ∉ stream_line use_lan env address := by
  unfold stream_line
  cases use_lan with
  | false =>
    intro hm
    simp only [Bool.false_eq_true, if_false, List.mem_append] at hm
    rcases hm with hm | hm
    · revert hm; decide
    · exact haddr hm
  | true =>
    intro hm
    simp only [if_true, List.mem_append] at hm
    rcases hm with (hm | hm) | hm
    · exact henv hm
    · revert hm; decide
    · exact haddr hm

theorem header_not_blank (ts : List Char) : isBlankLine (header_line ts) = false := by
  have hlit : ("#EXTM3U name=\"成都电信IPTV - ".data).all Char.isWhitespace = false := by
    decide
  simp [isBlankLine, header_line, List.all_append, hlit]

theorem extinf_not_blank (ch : ProcessedChannel) :
    isBlankLine (extinf_line ch) = false := by
  have hlit : ("#EXTINF:-1 tvg-logo=\"".data).all Char.isWhitespace = false := by
    decide
  simp [isBlankLine, extinf_line, List.all_append, hlit]

theorem stream_not_blank (use_lan : Bool) (env : Option (List Char))
    (address : List Char) : isBlankLine (stream_line use_lan env address) = false := by
  have h1 : ("rtp://".data).all Char.isWhitespace = false := by decide
  have h2 : ("/rtp/".data).all Char.isWhitespace = false := by decide
  cases use_lan <;> simp [isBlankLine, stream_line, List.all_append, h1, h2]

/-! ### Helper lemmas about first-match search and dictionary lookup -/

theorem find?_first_match (p : (List Char × List (List Char)) → Bool) :
    ∀ (rules : List (List Char × List (List Char))) (i : Nat),
      i < rules.length →
      p (rules.getD i ([], [])) = true →
      (∀ j, j < i → p (rules.getD j ([], [])) = false) →
      rules.find? p = some (rules.getD i ([], []))
  | [], i, hi, _, _ => by simp at hi
  | r :: rs, 0, _, hm, _ => by
    rw [List.getD_cons_zero] at hm ⊢
    rw [List.find?_cons_of_pos _ hm]
  | r :: rs, i + 1, hi, hm, hb => by
    have h0 : p r = false := by
      have := hb 0 (Nat.succ_pos i)
      rwa [List.getD_cons_zero] at this
    rw [List.getD_cons_succ] at hm ⊢
    rw [List.find?_cons_of_neg _ (by simp [h0])]
    exact find?_first_match p rs i (by simpa using Nat.lt_of_succ_lt_succ hi) hm
      (fun j hj => by
        have := hb (j + 1) (Nat.succ_lt_succ hj)
        rwa [List.getD_cons_succ] at this)

theorem dictGet_eq_of_last (join : List Char → List Char → List Char)
    (base : List Char) (l1 : List IconRecord) (item : IconRecord)
    (l2 : List IconRecord) (h : ∀ j ∈ l2, j.name ≠ item.name) :
    dictGet (build_icons_map join base (l1 ++ item :: l2)) item.name []
      = join base item.icon := by
  unfold dictGet build_icons_map
  rw [List.map_append, List.map_cons, List.reverse_append, List.reverse_cons,
    List.find?_append, List.find?_append]
  have hX : ((l2.map (fun it => (it.name, join base it.icon))).reverse).find?
      (fun p => p.1 == item.name) = none := by
    rw [List.find?_eq_none]
    intro x hx
    rw [List.mem_reverse, List.mem_map] at hx
    obtain ⟨j, hj, rfl⟩ := hx
    simp [h j hj]
  rw [hX]
  simp

/-! ### Helper lemmas about the channel pipeline -/

theorem mem_process_channels (channels : List RawChannelRecord)
    (m : List (List Char × List Char)) (p : ProcessedChannel)
    (hp : p ∈ process_channels channels m) :
    ∃ ch ∈ channels, contains_any ch.name filter_keywords = false ∧
      p = ⟨ch.id, cleanup ch.name, ch.address, categorize (cleanup ch.name),
        dictGet m (cleanup ch.name) []⟩ := by
  unfold process_channels at hp
  rw [List.mem_filterMap] at hp
  obtain ⟨ch, hch, hf⟩ := hp
  cases hc : contains_any ch.name filter_keywords with
  | true => simp [hc] at hf
  | false =>
    simp only [hc, Bool.false_eq_true, if_false, Option.some.injEq] at hf
    exact ⟨ch, hch, hc, hf.symm⟩

theorem process_channels_ids_sublist (channels : List RawChannelRecord)
    (m : List (List Char × List Char)) :
    (process_channels channels m).map (fun p => p.id)
      <+ channels.map (fun ch => ch.id) := by
  induction channels with
  | nil => simp [process_channels]
  | cons ch chs ih =>
    unfold process_channels at ih ⊢
    rw [List.filterMap_cons]
    by_cases hf : contains_any ch.name filter_keywords = true
    · simp only [hf, if_true]
      exact ih.cons ch.id
    · rw [Bool.not_eq_true] at hf
      simp only [hf, Bool.false_eq_true, if_false, List.map_cons]
      exact ih.cons₂ ch.id

theorem hyphen_not_mem_cleanup (name : List Char) : '-' ∉ cleanup name := by
  unfold cleanup cleanup_keywords
  simp only [List.foldl_cons, List.foldl_nil]
  intro hmem
  have hstep : '-' ∉ replaceAll "-".data
      (replaceAll "高清".data (replaceAll "超高清".data name)) := by
    have he : "-".data = ['-'] := rfl
    rw [he]
    exact not_mem_replaceAll_single '-' _
  exact hstep ((replaceAll_sublist "标清".data _).subset
    ((stripList_sublist _).subset hmem))

theorem chunk_flatten_count (use_lan : Bool) (env : Option (List Char))
    (henv : '\n' ∉ env.getD "http://localhost".data) :
    ∀ channels : List ProcessedChannel,
      (∀ ch ∈ channels, '\n' ∉ ch.id ∧ '\n' ∉ ch.name ∧ '\n' ∉ ch.address ∧
        '\n' ∉ ch.tag ∧ '\n' ∉ ch.icon) →
      nonBlankCount ((channels.map (fun ch =>
        extinf_line ch ++ "\n".data ++ stream_line use_lan env ch.address
          ++ "\n".data)).flatten) = 2 * channels.length
  | [], _ => by simp [nonBlankCount, linesOf, isBlankLine]
  | ch :: chs, hall => by
    have hch := hall ch (List.mem_cons_self ch chs)
    have hrest := fun c hc => hall c (List.mem_cons_of_mem ch hc)
    rw [List.map_cons, List.flatten_cons]
    have hnl : "\n".data = ['\n'] := rfl
    rw [hnl]
    have hassoc : (extinf_line ch ++ ['\n'] ++ stream_line use_lan env ch.address
          ++ ['\n']) ++ ((chs.map (fun c =>
            extinf_line c ++ "\n".data ++ stream_line use_lan env c.address
              ++ "\n".data)).flatten)
        = extinf_line ch ++ '\n' :: (stream_line use_lan env ch.address
            ++ '\n' :: ((chs.map (fun c =>
              extinf_line c ++ "\n".data ++ stream_line use_lan env c.address
                ++ "\n".data)).flatten)) := by
      simp [List.append_assoc]
    rw [hassoc,
      nonBlankCount_append _ _ (newline_not_mem_extinf ch hch.1 hch.2.1
        hch.2.2.2.1 hch.2.2.2.2),
      nonBlankCount_append _ _ (newline_not_mem_stream use_lan env ch.address
        henv hch.2.2.1),
      extinf_not_blank, stream_not_blank,
      chunk_flatten_count use_lan env henv chs hrest]
    simp [List.length_cons]
    omega

/-! ### The claims -/

/-- C1 (counterexample): on the raw row `["1", "CCTV-1 高清", "239.1.1.1:5000"]`
with an icon index not containing the cleaned name, the produced channel
name is NOT `"CCTV-1"` (the cleanup step also removes the hyphen, a cleanup
keyword). -/
theorem scenario1_cleaned_name_cex :
    (process_channels [⟨"1".data, "CCTV-1 高清".data, "239.1.1.1:5000".data⟩]
      []).map (fun p => p.name) ≠ ["CCTV-1".data] := by decide

/-- C1 (amended): on the raw row `["1", "CCTV-1 高清", "239.1.1.1:5000"]`
with an icon index not containing the cleaned name, the Channel Normalizer
produces the record with name `"CCTV1"`, tag `"央视"` and empty icon. -/
theorem scenario1_processed_record :
    process_channels [⟨"1".data, "CCTV-1 高清".data, "239.1.1.1:5000".data⟩] []
      = [⟨"1".data, "CCTV1".data, "239.1.1.1:5000".data, "央视".data, []⟩] := by
  decide

/-- C2 (counterexample): cleanup is NOT idempotent on all names: removing
`"高清"` from `"高高清清"` leaves a fresh `"高清"`, which a second cleanup
removes. -/
theorem cleanup_not_idempotent_cex :
    cleanup (cleanup "高高清清".data) ≠ cleanup "高高清清".data := by decide

/-- C2 (amended): the cleanup step is idempotent on every name whose
cleaned form contains no cleanup keyword as a substring. -/
theorem cleanup_idempotent_of_clean (n : List Char)
    (h : ∀ kw ∈ cleanup_keywords, substringOf kw (cleanup n) = false) :
    cleanup (cleanup n) = cleanup n := by
  have h1 := replaceAll_eq_self "超高清".data (cleanup n)
    (h _ (by simp [cleanup_keywords]))
  have h2 := replaceAll_eq_self "高清".data (cleanup n)
    (h _ (by simp [cleanup_keywords]))
  have h3 := replaceAll_eq_self "-".data (cleanup n)
    (h _ (by simp [cleanup_keywords]))
  have h4 := replaceAll_eq_self "标清".data (cleanup n)
    (h _ (by simp [cleanup_keywords]))
  calc cleanup (cleanup n)
      = stripList (List.foldl (fun a kw => replaceAll kw a) (cleanup n)
          cleanup_keywords) := rfl
    _ = stripList (cleanup n) := by
        simp only [cleanup_keywords, List.foldl_cons, List.foldl_nil]
        rw [h1, h2, h3, h4]
    _ = cleanup n := by
        have hd : cleanup n = stripList (List.foldl (fun a kw => replaceAll kw a)
            n cleanup_keywords) := rfl
        rw [hd, stripList_idem]

theorem cleanup_idempotent_of_clean_witness :
    cleanup (cleanup "CCTV 高清".data) = cleanup "CCTV 高清".data :=
  cleanup_idempotent_of_clean ("CCTV 高清".data) (by decide)

/-- C3 (counterexample): a ProcessedChannel CAN have a name containing a
cleanup keyword: the surviving raw name `"高高清清"` cleans to `"高清"`,
which contains the cleanup keyword `"高清"`. -/
theorem processed_keyword_in_name_cex :
    ∃ p ∈ process_channels [⟨"9".data, "高高清清".data, "239.0.0.1:1".data⟩]
      ([] : List (List Char × List Char)),
      ∃ kw ∈ cleanup_keywords, substringOf kw p.name = true := by decide

/-- C3 (amended): every ProcessedChannel has a name containing no `'-'`
(the hyphen cleanup keyword can never survive nor reappear), and originates
from a raw row whose raw name contains no filter keyword as a substring
(its name being the cleanup of that raw name). -/
theorem processed_channel_invariant (channels : List RawChannelRecord)
    (m : List (List Char × List Char)) (p : ProcessedChannel)
    (hp : p ∈ process_channels channels m) :
    '-' ∉ p.name ∧
      ∃ ch ∈ channels, contains_any ch.name filter_keywords = false ∧
        p.id = ch.id ∧ p.name = cleanup ch.name := by
  obtain ⟨ch, hch, hfil, hpe⟩ := mem_process_channels channels m p hp
  subst hpe
  exact ⟨hyphen_not_mem_cleanup ch.name, ch, hch, hfil, rfl, rfl⟩

theorem processed_channel_invariant_witness :
    '-' ∉ (ProcessedChannel.mk "1".data "CCTV1".data "239.1.1.1:5000".data
        "央视".data []).name ∧
      ∃ ch ∈ [RawChannelRecord.mk "1".data "CCTV-1 高清".data
          "239.1.1.1:5000".data],
        contains_any ch.name filter_keywords = false ∧
          (ProcessedChannel.mk "1".data "CCTV1".data "239.1.1.1:5000".data
            "央视".data []).id = ch.id ∧
          (ProcessedChannel.mk "1".data "CCTV1".data "239.1.1.1:5000".data
            "央视".data []).name = cleanup ch.name :=
  processed_channel_invariant
    [⟨"1".data, "CCTV-1 高清".data, "239.1.1.1:5000".data⟩] []
    ⟨"1".data, "CCTV1".data, "239.1.1.1:5000".data, "央视".data, []⟩
    (by decide)

/-- C4: categorization is a total deterministic function of the cleaned
name; the first rule (in declared order) whose trigger set matches wins,
the default `"其他"` is assigned when no rule matches, and in particular
`"四川卫视"` receives tag `"卫视"` (declared before `"四川"`), not
`"四川"`. -/
theorem categorize_first_match :
    (∀ name, (∀ rule ∈ category_rules, contains_any name rule.2 = false) →
        categorize name = "其他".data) ∧
    (∀ name i, i < category_rules.length →
        contains_any name (category_rules.getD i ([], [])).2 = true →
        (∀ j, j < i → contains_any name (category_rules.getD j ([], [])).2 = false) →
        categorize name = (category_rules.getD i ([], [])).1) ∧
    categorize "四川卫视".data = "卫视".data := by
  refine ⟨?_, ?_, by decide⟩
  · intro name h
    unfold categorize
    have hn : category_rules.find? (fun rule => contains_any name rule.2) = none :=
      List.find?_eq_none.mpr (fun x hx => by simp [h x hx])
    rw [hn]
  · intro name i hi hm hb
    unfold categorize
    rw [find?_first_match (fun rule => contains_any name rule.2)
      category_rules i hi hm hb]

theorem categorize_first_match_witness :
    categorize "四川卫视".data = (category_rules.getD 1 ([], [])).1 :=
  categorize_first_match.2.1 "四川卫视".data 1 (by decide) (by decide)
    (fun j hj => by
      have hj0 : j = 0 := Nat.lt_one_iff.mp hj
      subst hj0
      decide)

/-- C5: the processed output is an order-preserving subsequence of the raw
input (its ids form a sublist of the raw ids, hence a subset appearing in
the same relative order), and the row with raw name `"测试频道"` is dropped
entirely (filter keyword `"测试"`), whatever the icon index. -/
theorem process_order_preserving :
    (∀ (channels : List RawChannelRecord) (m : List (List Char × List Char)),
        (process_channels channels m).map (fun p => p.id)
          <+ channels.map (fun ch => ch.id)) ∧
    (∀ m : List (List Char × List Char),
        process_channels [⟨"2".data, "测试频道".data, "239.1.1.2:5000".data⟩] m
          = []) := by
  refine ⟨process_channels_ids_sublist, ?_⟩
  intro m
  simp [process_channels,
    show contains_any "测试频道".data filter_keywords = true from by decide]

set_option maxRecDepth 4000 in
/-- C6 (counterexample): the playlist text does NOT always have exactly
`2 * n + 1` non-blank lines: a channel whose name contains a newline
character makes its metadata line split into two non-blank lines. -/
theorem playlist_line_count_cex :
    nonBlankCount (write_m3u8_content
        [⟨"1".data, ['a', '\n', 'b'], "239.1.1.1:5000".data, "t".data, []⟩]
        "2026-01-01T00:00:00Z".data false none)
      ≠ 2 * 1 + 1 := by decide

/-- C6 (amended): for every channel list of length `n` whose field strings
contain no newline character, and every newline-free timestamp and LAN
address, the playlist text contains exactly `2 * n + 1` non-blank lines:
one header line, then per channel one `#EXTINF` line and one
stream-address line. -/
theorem playlist_line_count (channels : List ProcessedChannel) (ts : List Char)
    (use_lan : Bool) (env : Option (List Char))
    (hts : '\n' ∉ ts) (henv : '\n' ∉ env.getD "http://localhost".data)
    (hch : ∀ ch ∈ channels, '\n' ∉ ch.id ∧ '\n' ∉ ch.name ∧ '\n' ∉ ch.address ∧
      '\n' ∉ ch.tag ∧ '\n' ∉ ch.icon) :
    nonBlankCount (write_m3u8_content channels ts use_lan env)
      = 2 * channels.length + 1 := by
  unfold write_m3u8_content
  have hnl : "\n\n".data = ['\n', '\n'] := rfl
  rw [hnl]
  have hassoc : header_line ts ++ ['\n', '\n'] ++ ((channels.map (fun ch =>
        extinf_line ch ++ "\n".data ++ stream_line use_lan env ch.address
          ++ "\n".data)).flatten)
      = header_line ts ++ '\n' :: (([] : List Char) ++ '\n' :: ((channels.map (fun ch =>
          extinf_line ch ++ "\n".data ++ stream_line use_lan env ch.address
            ++ "\n".data)).flatten)) := by
    simp
  rw [hassoc, nonBlankCount_append _ _ (newline_not_mem_header ts hts),
    nonBlankCount_append _ _ (by simp : '\n' ∉ ([] : List Char)),
    header_not_blank, chunk_flatten_count use_lan env henv channels hch]
  simp [isBlankLine]
  omega

theorem playlist_line_count_witness :
    nonBlankCount (write_m3u8_content
        [⟨"1".data, "CCTV1".data, "239.1.1.1:5000".data, "央视".data, []⟩]
        "2026-01-01T00:00:00Z".data false none) = 2 * 1 + 1 :=
  playlist_line_count
    [⟨"1".data, "CCTV1".data, "239.1.1.1:5000".data, "央视".data, []⟩]
    ("2026-01-01T00:00:00Z".data) false none (by decide) (by decide) (by decide)

/-- C7: the stream-address line is exactly `rtp://A` in raw-multicast mode
and `<LAN_ADDRESS>/rtp/A` in LAN mode; with `LAN_ADDRESS` unset, the
LAN-mode line for `239.1.1.1:5000` is
`http://localhost/rtp/239.1.1.1:5000`. -/
theorem stream_line_forms :
    (∀ (env : Option (List Char)) (address : List Char),
        stream_line false env address = "rtp://".data ++ address) ∧
    (∀ lan address : List Char,
        stream_line true (some lan) address = lan ++ "/rtp/".data ++ address) ∧
    stream_line true none "239.1.1.1:5000".data
      = "http://localhost/rtp/239.1.1.1:5000".data := by
  refine ⟨fun env address => rfl, fun lan address => rfl, by decide⟩

/-- C8: when the channel-page fetch fails (the fetch returns the failure
signal `none` instead of raising), the extractor yields an empty channel
list and the run still completes, producing both playlists with zero
channel entries (header chunk only). -/
theorem fetch_failure_resilience :
    ∀ (icon_rows : Option (List IconRow))
      (join : List Char → List Char → List Char) (base_url : List Char)
      (env : Option (List Char)) (ts_lan ts_rtp : List Char),
      extract_channels none = [] ∧
      (run none icon_rows join base_url env ts_lan ts_rtp).1
        = header_line ts_lan ++ "\n\n".data ∧
      (run none icon_rows join base_url env ts_lan ts_rtp).2
        = header_line ts_rtp ++ "\n\n".data := by
  intro icon_rows join base_url env ts_lan ts_rtp
  refine ⟨rfl, ?_, ?_⟩ <;>
    simp [run, extract_channels, process_channels, write_m3u8_content]

/-- C9: the icon index builder skips rows with fewer than 4 cells and rows
whose first cell has no hyperlink or a `"#"` target; an accepted row is
recorded with name `cells[2]` (and id `cells[3]`) mapped to its icon path
resolved against the base URL; with duplicate names the later row wins. -/
theorem icon_index_spec :
    (∀ (pre post : List IconRow) (r : IconRow),
        (r.cells.length < 4 ∨ r.firstCellHref = none ∨
          r.firstCellHref = some "#".data) →
        load_icons (some (pre ++ r :: post)) = load_icons (some (pre ++ post))) ∧
    (∀ (r : IconRow) (href : List Char), 4 ≤ r.cells.length →
        r.firstCellHref = some href → href ≠ "#".data →
        load_icons (some [r]) = [⟨r.cells.getD 3 [], r.cells.getD 2 [], href⟩]) ∧
    (∀ (join : List Char → List Char → List Char) (base : List Char)
        (l1 : List IconRecord) (item : IconRecord) (l2 : List IconRecord),
        (∀ j ∈ l2, j.name ≠ item.name) →
        dictGet (build_icons_map join base (l1 ++ item :: l2)) item.name []
          = join base item.icon) := by
  refine ⟨?_, ?_, dictGet_eq_of_last⟩
  · intro pre post r hskip
    simp only [load_icons]
    rw [List.filterMap_append, List.filterMap_append, List.filterMap_cons]
    have hfr : (if r.cells.length < 4 then none
        else match r.firstCellHref with
          | none => none
          | some href => if href = "#".data then none
            else some (⟨r.cells.getD 3 [], r.cells.getD 2 [], href⟩ : IconRecord))
        = none := by
      by_cases hl : r.cells.length < 4
      · rw [if_pos hl]
      · rcases hskip with h | h | h
        · exact absurd h hl
        · rw [if_neg hl, h]
        · rw [if_neg hl, h]
          simp
    rw [hfr]
  · intro r href hlen hhref hne
    have hne2 : ¬(href = ['#']) := hne
    simp only [load_icons, List.filterMap_cons, List.filterMap_nil]
    rw [if_neg (by omega), hhref]
    simp [hne2]

theorem icon_index_spec_witness :
    dictGet (build_icons_map (fun b u => b ++ u) "http://epg/".data
        [⟨"1".data, "CCTV1".data, "old.png".data⟩,
         ⟨"2".data, "CCTV1".data, "new.png".data⟩]) "CCTV1".data []
      = "http://epg/".data ++ "new.png".data :=
  icon_index_spec.2.2 (fun b u => b ++ u) "http://epg/".data
    [⟨"1".data, "CCTV1".data, "old.png".data⟩]
    ⟨"2".data, "CCTV1".data, "new.png".data⟩ [] (by simp)

/-- C10: the filter step tests only the raw name: the raw name `"测-试"`
contains no filter keyword, yet its cleaned form `"测试"` is itself a
filter keyword; the row survives into the processed output. -/
theorem filter_precleanup_gap :
    contains_any "测-试".data filter_keywords = false ∧
    cleanup "测-试".data = "测试".data ∧
    contains_any "测试".data filter_keywords = true ∧
    (process_channels [⟨"7".data, "测-试".data, "239.1.1.9:5000".data⟩] []).map
      (fun p => p.name) = ["测试".data] := by decide

end IPTV
